import Mathlib

/-!
Verification of the parallel-worker orchestrator (`datamultiproc.py`) and the
payments-records loader (`payments-records-loader.py`).

The Python code is shallowly embedded as executable Lean definitions:

* Python's `/` on integers is true division producing an IEEE-754 binary64
  (double) value; `int(...)` truncates toward zero.  Doubles are modelled in
  exact scaled-integer form: a pair `(m, s) : ℤ × ℤ` denotes the real value
  `m * 2 ^ s`.  `roundPos a b` rounds the positive rational `a / b` to the
  nearest double (53 significant bits, ties to even), which is the exact
  IEEE-754 semantics in the normal range (overflow and subnormals do not
  occur at the magnitudes the program manipulates).
* The orchestrator `run_data_processors` is modelled as the sequence of
  process/queue events it performs on the run without external interrupts,
  or the exception it raises.
* The log-aggregator loop `logger_process_run` is modelled as the list of
  sink actions (write / flush / close) it performs on a given dequeue order.
-/

/-- Python exceptions that the embedded fragments can raise. -/
inductive PyExc where
  | zeroDivisionError
  | fileNotFoundError
  | keyboardInterrupt
  | otherError (message : String)
deriving DecidableEq

/-- Fuel-driven floor of the base-2 logarithm (structural recursion so that
the kernel can evaluate it on large literals). -/
def natLog2F : ℕ → ℕ → ℕ
  | 0, _ => 0
  | fuel + 1, n => if n < 2 then 0 else natLog2F fuel (n / 2) + 1

/-- Floor of the base-2 logarithm of a natural number (`natLog2 0 = 0`). -/
def natLog2 (n : ℕ) : ℕ := natLog2F n n

/-- Decides `2 ^ e ≤ a / b` for a signed exponent, by integer comparison. -/
def pow2le (e : ℤ) (a b : ℕ) : Bool :=
  if 0 ≤ e then decide (b * 2 ^ e.toNat ≤ a) else decide (b ≤ a * 2 ^ (-e).toNat)

/-- Floor of the base-2 logarithm of the positive rational `a / b`. -/
def flog2 (a b : ℕ) : ℤ :=
  if pow2le ((natLog2 a : ℤ) - (natLog2 b : ℤ)) a b then
    (natLog2 a : ℤ) - (natLog2 b : ℤ)
  else
    (natLog2 a : ℤ) - (natLog2 b : ℤ) - 1

/-- The numerator of `a / b` rescaled so that the quotient by `scaledDen`
lands in the binade `[2^52, 2^53)`. -/
def scaledNum (a b : ℕ) : ℕ :=
  if 0 ≤ flog2 a b - 52 then a else a * 2 ^ (52 - flog2 a b).toNat

/-- The denominator of `a / b` rescaled to match `scaledNum`. -/
def scaledDen (a b : ℕ) : ℕ :=
  if 0 ≤ flog2 a b - 52 then b * 2 ^ (flog2 a b - 52).toNat else b

/-- Rounds `num / den` to the nearest integer, ties to even. -/
def roundMantissa (num den : ℕ) : ℕ :=
  if 2 * (num % den) < den then num / den
  else if den < 2 * (num % den) then num / den + 1
  else if (num / den) % 2 = 0 then num / den else num / den + 1

/-- Rounds the positive rational `a / b` to the nearest IEEE-754 binary64
value, returned in scaled-integer form `(mantissa, exponent)`. -/
def roundPos (a b : ℕ) : ℤ × ℤ :=
  ((roundMantissa (scaledNum a b) (scaledDen a b) : ℤ), flog2 a b - 52)

/-- Rounds the rational `a / b` (with `b > 0`) to the nearest double. -/
def roundQ (a : ℤ) (b : ℕ) : ℤ × ℤ :=
  if a < 0 then
    ((- (roundPos (-a).toNat b).1), (roundPos (-a).toNat b).2)
  else roundPos a.toNat b

/-- Python true division `a / b` on integers: the exact quotient rounded to
the nearest double.  (Callers guard the `b = 0` case, which raises.) -/
def pyFloat_div (a b : ℤ) : ℤ × ℤ :=
  if b < 0 then roundQ (-a) (-b).toNat else roundQ a b.toNat

/-- Rounds an exact scaled value `m * 2 ^ s` to the nearest double. -/
def roundScaled (m s : ℤ) : ℤ × ℤ :=
  if 0 ≤ s then roundQ (m * 2 ^ s.toNat) 1 else roundQ m (2 ^ (-s).toNat)

/-- Python float multiplication: the exact product, rounded to a double. -/
def pyFloat_mul (x y : ℤ × ℤ) : ℤ × ℤ :=
  roundScaled (x.1 * y.1) (x.2 + y.2)

/-- Conversion of a Python int to a double (rounds to nearest). -/
def floatOfInt (i : ℤ) : ℤ × ℤ := roundQ i 1

/-- Python `int(...)` applied to a double: truncation toward zero. -/
def pyInt_of_float (p : ℤ × ℤ) : ℤ :=
  if 0 ≤ p.2 then p.1 * 2 ^ p.2.toNat
  else if 0 ≤ p.1 then ((p.1.toNat / 2 ^ (-p.2).toNat : ℕ) : ℤ)
  else -(((-p.1).toNat / 2 ^ (-p.2).toNat : ℕ) : ℤ)

/-- Python float modulo `x % y` for doubles in scaled form.  For a positive
divisor the result is exact (`fmod` is exact): both operands are brought to
a common scale and the euclidean remainder of the mantissas is taken.
Raises `ZeroDivisionError` when the divisor is the value zero. -/
def pyFloat_mod (x y : ℤ × ℤ) : Except PyExc (ℤ × ℤ) :=
  if y.1 = 0 then Except.error PyExc.zeroDivisionError
  else
    Except.ok
      (x.1 * 2 ^ (x.2 - min x.2 y.2).toNat % (y.1 * 2 ^ (y.2 - min x.2 y.2).toNat),
       min x.2 y.2)

/-- Python `range(n)` for a possibly negative bound (empty when `n ≤ 0`). -/
def pyRange (n : ℤ) : List ℤ :=
  if n ≤ 0 then [] else (List.range n.toNat).map (fun k => (k : ℤ))

/-- `datamultiproc.py`, line 99: the end-of-stream token for the log queue. -/
def STOP_TOKEN : String := "EOF!!"

/-- `datamultiproc.py`, line 20:
`records_per_process = int(records_count / processor_count)` —
true (float) division followed by truncation toward zero. -/
def records_per_process (records_count : ℕ) (processor_count : ℤ) : ℤ :=
  pyInt_of_float (pyFloat_div (records_count : ℤ) processor_count)

/-- Observable orchestration steps of `run_data_processors`
(`datamultiproc.py`, lines 19-52), in program order. -/
inductive Event where
  | removeLogfile
  | createQueue
  | startLogProcess
  | constructWorker (i : ℕ)
  | startWorker (i : ℕ)
  | joinWorker (i : ℕ)
  | putStopToken
  | joinLogProcess
deriving DecidableEq

/-- `datamultiproc.py`, lines 19-52, on a run without external interrupts:
either the raised exception, or the computed `records_per_process` together
with the sequence of orchestration events.  Line 20 raises
`ZeroDivisionError` if and only if `processor_count = 0`; afterwards the
logfile is removed, the queue is created, the logger process is started,
the workers are constructed by `for i in range(processor_count)`, then
started, then joined, then the stop token is enqueued and the logger
process is joined. -/
def run_data_processors (processor_count : ℤ) (records_count : ℕ) :
    Except PyExc (ℤ × List Event) :=
  if processor_count = 0 then Except.error PyExc.zeroDivisionError
  else
    Except.ok (records_per_process records_count processor_count,
      [Event.removeLogfile, Event.createQueue, Event.startLogProcess]
        ++ (List.range processor_count.toNat).map Event.constructWorker
        ++ (List.range processor_count.toNat).map Event.startWorker
        ++ (List.range processor_count.toNat).map Event.joinWorker
        ++ [Event.putStopToken, Event.joinLogProcess])

/-- The per-worker partition sizes handed out by the construction loop
(`datamultiproc.py`, lines 32-36): every worker receives
`records_per_process`. -/
def workerPartitionSizes (processor_count : ℤ) (records_count : ℕ) : List ℤ :=
  (List.range processor_count.toNat).map
    (fun _ => records_per_process records_count processor_count)

/-- Sink actions performed by the log-aggregator loop. -/
inductive LogAct where
  | write (line : String)
  | flush
  | close
deriving DecidableEq

/-- `datamultiproc.py`, lines 60-73: the aggregator loop, as the list of
sink actions performed on a given dequeue order.  Each dequeued line equal
to the stop token closes the file and breaks; any other line is written and
the file is flushed before the next dequeue.  An empty list means the loop
is still blocked waiting on the queue. -/
def logger_process_run (stop_token : String) : List String → List LogAct
  | [] => []
  | line :: rest =>
    if line = stop_token then [LogAct.close]
    else LogAct.write line :: LogAct.flush :: logger_process_run stop_token rest

/-- The write/flush action sequence for a list of lines (the aggregator's
behaviour on pure data traffic). -/
def writeFlushSeq : List String → List LogAct
  | [] => []
  | line :: rest => LogAct.write line :: LogAct.flush :: writeFlushSeq rest

/-- Outcome of one invocation of the caller-supplied work function. -/
inductive WorkOutcome where
  | completed
  | keyboardInterrupt
  | raisedOther (e : String)
deriving DecidableEq

/-- How a worker process terminates. -/
inductive ProcExit where
  | normalReturn
  | hardExit (code : ℕ)
  | uncaughtExc (e : String)
deriving DecidableEq

/-- The `try ... except KeyboardInterrupt: os._exit(0)` discipline of
`datamultiproc.py`, lines 81-84: a keyboard interrupt is answered with an
immediate `os._exit(0)`; a normal return returns; any other exception is
not caught and escapes the process. -/
def handleKeyboardInterrupt : WorkOutcome → ProcExit
  | WorkOutcome.keyboardInterrupt => ProcExit.hardExit 0
  | WorkOutcome.completed => ProcExit.normalReturn
  | WorkOutcome.raisedOther e => ProcExit.uncaughtExc e

/-- `datamultiproc.py`, lines 80-84: `args[0](*(args[1:]))` under the
keyboard-interrupt trap.  The first component records the argument tuples
the work function is invoked with (exactly one invocation, with the bound
arguments); the second is the process exit mode. -/
def wrapper_process_with_keyboard_exception {α : Type} (func : α → WorkOutcome)
    (boundArgs : α) : List α × ProcExit :=
  ([boundArgs], handleKeyboardInterrupt (func boundArgs))

/-- `os.remove(logfile_name)`: removes the file, raising
`FileNotFoundError` when no file exists (`datamultiproc.py`, line 23). -/
def os_remove (file : Option String) : Except PyExc (Option String) :=
  match file with
  | none => Except.error PyExc.fileNotFoundError
  | some _ => Except.ok none

/-- `with contextlib.suppress(FileNotFoundError): os.remove(...)`
(`datamultiproc.py`, lines 22-23): a missing-file error leaves the state
as it was and is swallowed; other outcomes pass through. -/
def remove_suppressing_missing (file : Option String) : Except PyExc (Option String) :=
  match os_remove file with
  | Except.error PyExc.fileNotFoundError => Except.ok file
  | r => r

/-- `open(logfile, 'w')` (`datamultiproc.py`, line 62): the sink is opened
for writing with truncation, so its content starts empty whatever was on
disk before. -/
def open_truncating (_file : Option String) : String := ""

/-- The sink content produced by the aggregator loop, starting from
`content`, on a given dequeue order (the `f.write` accumulation of
`datamultiproc.py`, lines 63-71). -/
def logger_written_content (stop_token : String) (content : String) :
    List String → String
  | [] => content
  | line :: rest =>
    if line = stop_token then content
    else logger_written_content stop_token (content ++ line) rest

/-- Sink content at the end of a run: the pre-existing file (if any) is
removed with missing-file suppression, the sink is reopened truncating, and
the aggregator writes the dequeued lines. -/
def run_sink_content (prev : Option String) (msgs : List String) :
    Except PyExc String :=
  match remove_suppressing_missing prev with
  | Except.error e => Except.error e
  | Except.ok fileAfter =>
    Except.ok (logger_written_content STOP_TOKEN (open_truncating fileAfter) msgs)

/-- `payments-records-loader.py`, lines 130/171: the Python expression
`records_per_process / 100` (true division, a double). -/
def sampleDivisor (records_per_proc : ℤ) : ℤ × ℤ := pyFloat_div records_per_proc 100

/-- `payments-records-loader.py`, lines 130/171: the sampling guard
`count % (records_per_process / 100) == 0`, which raises
`ZeroDivisionError` when the divisor is the float zero. -/
def sampleGuard (records_per_proc count : ℤ) : Except PyExc Bool :=
  match pyFloat_mod (floatOfInt count) (sampleDivisor records_per_proc) with
  | Except.error e => Except.error e
  | Except.ok r => Except.ok (decide (r.1 = 0))

/-- State of the local variable `start` right after the guarded assignment
`if count % (records_per_process/100) == 0: start = ...`
(`payments-records-loader.py`, lines 130-131): it is bound afterwards if it
was bound before or the guard held. -/
def startAssignedAfterGuard (records_per_proc count : ℤ) (prev : Bool) :
    Except PyExc Bool :=
  match sampleGuard records_per_proc count with
  | Except.error e => Except.error e
  | Except.ok g => Except.ok (prev || g)

/-- `logSampleStatusOnEachPercent` reads its `start_utc` argument exactly
when its own guard (`payments-records-loader.py`, line 171), the identical
expression over the same values, holds. -/
def logSampleReadsStart (records_per_proc count : ℤ) : Except PyExc Bool :=
  sampleGuard records_per_proc count

/-- `payments-records-loader.py`, line 172:
`int(count / records_per_process * 100)` under Python float semantics. -/
def pctOf (records_per_proc count : ℤ) : ℤ :=
  pyInt_of_float (pyFloat_mul (pyFloat_div count records_per_proc) (floatOfInt 100))

/-- `payments-records-loader.py`, lines 172-175: the message text enqueued
by `logSampleStatusOnEachPercent`.  The `datetime.now()` and response-time
interpolations are run-time strings and appear as parameters. -/
def logSampleStatusMessage (records_per_proc process_id count : ℤ)
    (nowStr respStr : String) : String :=
  toString (pctOf records_per_proc count) ++ "% - " ++ toString count
    ++ " documents inserted for data set id " ++ toString process_id ++ " - "
    ++ nowStr ++ " - sample response time for one request: " ++ respStr ++ " ms\n"

/-- The decimal digit character for `d < 10` (`'0'` has code 48). -/
def digitChar10 (d : ℕ) : Char := Char.ofNat (48 + d)

/-- Fuel-driven most-significant-first decimal digits of `n`. -/
def toDecimalAux : ℕ → ℕ → List Char
  | 0, _ => []
  | fuel + 1, n =>
    if n < 10 then [digitChar10 n]
    else toDecimalAux fuel (n / 10) ++ [digitChar10 (n % 10)]

/-- Decimal representation of a natural number, as Python `str` / f-string
formatting produces it. -/
def natDecimal (n : ℕ) : List Char := toDecimalAux (n + 1) n

/-- Decodes a digit list back to a number (for the round-trip proof). -/
def decodeDecimal (l : List Char) : ℕ :=
  l.foldl (fun a c => 10 * a + (c.toNat - 48)) 0

/-- `payments-records-loader.py`, line 118: the document key
`f'{process_id}_{count}'` built by `insert_payment_records`. -/
def ingest_doc_id (process_id count : ℕ) : String :=
  { data := natDecimal process_id ++ '_' :: natDecimal count }

/-- Discriminates worker-start events. -/
def isStartEvent : Event → Bool
  | Event.startWorker _ => true
  | _ => false

/-- Discriminates worker-join events. -/
def isJoinEvent : Event → Bool
  | Event.joinWorker _ => true
  | _ => false

/-- The ordering discipline claimed for the orchestrator over an event
trace `t`, for `pc` workers:
* two-phase start: the trace splits into a front part containing every
  worker construction and no worker start, and a remainder;
* the worker starts occur exactly in index order `0, …, pc-1`, and the
  worker joins occur exactly in that same (start) order;
* the trace ends with the stop-token enqueue followed immediately by the
  aggregator join, the stop token is enqueued nowhere else, the aggregator
  is joined nowhere else, and every worker join happens before the stop
  token is enqueued. -/
def OrchestratorOrdered (pc : ℕ) (t : List Event) : Prop :=
  (∃ front rest, t = front ++ rest ∧
    (∀ i < pc, Event.constructWorker i ∈ front) ∧
    (∀ e ∈ front, isStartEvent e = false)) ∧
  t.filter isStartEvent = (List.range pc).map Event.startWorker ∧
  t.filter isJoinEvent = (List.range pc).map Event.joinWorker ∧
  (∃ before, t = before ++ [Event.putStopToken, Event.joinLogProcess] ∧
    Event.putStopToken ∉ before ∧
    Event.joinLogProcess ∉ before ∧
    (∀ i < pc, Event.joinWorker i ∈ before))

/-! ### Helper lemmas -/

theorem filter_map_eq_nil {α β : Type} (p : β → Bool) (f : α → β)
    (hp : ∀ x, p (f x) = false) (l : List α) : (l.map f).filter p = [] := by
  induction l with
  | nil => rfl
  | cons a t ih => simp [hp, ih]

theorem filter_map_eq_self {α β : Type} (p : β → Bool) (f : α → β)
    (hp : ∀ x, p (f x) = true) (l : List α) : (l.map f).filter p = l.map f := by
  induction l with
  | nil => rfl
  | cons a t ih => simp [hp, ih]

theorem logger_run_on_data (stop : String) :
    ∀ pre : List String, stop ∉ pre →
      logger_process_run stop (pre ++ [stop]) = writeFlushSeq pre ++ [LogAct.close] := by
  intro pre
  induction pre with
  | nil => intro _; simp [logger_process_run, writeFlushSeq]
  | cons m rest ih =>
    intro hm
    have hne : m ≠ stop := fun e => hm (by simp [e])
    have htail : stop ∉ rest := fun e => hm (by simp [e])
    simp [logger_process_run, writeFlushSeq, hne, ih htail]

theorem logger_close_needs_stop (stop : String) :
    ∀ msgs : List String, LogAct.close ∈ logger_process_run stop msgs → stop ∈ msgs := by
  intro msgs
  induction msgs with
  | nil => simp [logger_process_run]
  | cons m rest ih =>
    simp only [logger_process_run]
    by_cases hm : m = stop
    · simp [hm]
    · rw [if_neg hm]
      intro hmem
      rcases List.mem_cons.mp hmem with hc | hmem2
      · exact absurd hc (by simp)
      · rcases List.mem_cons.mp hmem2 with hc | hmem3
        · exact absurd hc (by simp)
        · exact List.mem_cons_of_mem m (ih hmem3)

/-! ### Claims -/

/-- Claim C5 (confirmed): on every dequeue order that is sentinel-free data
followed by the sentinel, the aggregator writes each message verbatim in
order, flushing after each write before the next dequeue; on dequeuing the
sentinel it closes the sink and performs nothing further; and consuming the
sentinel is the only way the loop reaches its close action. -/
theorem claim_C5 (stop : String) (pre : List String) (h : stop ∉ pre) :
    logger_process_run stop (pre ++ [stop]) = writeFlushSeq pre ++ [LogAct.close] ∧
    (∀ msgs : List String, LogAct.close ∈ logger_process_run stop msgs → stop ∈ msgs) :=
  ⟨logger_run_on_data stop pre h, logger_close_needs_stop stop⟩

/-- Witness for claim C5 at a concrete sentinel-terminated dequeue order. -/
theorem claim_C5_witness :
    (STOP_TOKEN ∉ ["alpha line\n", "beta line\n"]) ∧
    (logger_process_run STOP_TOKEN (["alpha line\n", "beta line\n"] ++ [STOP_TOKEN]) =
        writeFlushSeq ["alpha line\n", "beta line\n"] ++ [LogAct.close] ∧
      (∀ msgs : List String,
        LogAct.close ∈ logger_process_run STOP_TOKEN msgs → STOP_TOKEN ∈ msgs)) :=
  ⟨by decide, claim_C5 STOP_TOKEN (["alpha line\n", "beta line\n"]) (by decide)⟩

/-- Claim C6 (confirmed): the wrapper invokes the supplied work function
exactly once with the bound argument tuple; a keyboard interrupt raised by
the work function makes the worker exit immediately via `os._exit(0)`
without re-raising; any other exception is not caught by the wrapper and
escapes, and nothing but such an exception can make one escape. -/
theorem claim_C6 {α : Type} (func : α → WorkOutcome) (a : α) :
    (wrapper_process_with_keyboard_exception func a).1 = [a] ∧
    (func a = WorkOutcome.keyboardInterrupt →
      (wrapper_process_with_keyboard_exception func a).2 = ProcExit.hardExit 0) ∧
    (∀ e, func a = WorkOutcome.raisedOther e →
      (wrapper_process_with_keyboard_exception func a).2 = ProcExit.uncaughtExc e) ∧
    (∀ e, (wrapper_process_with_keyboard_exception func a).2 = ProcExit.uncaughtExc e →
      func a = WorkOutcome.raisedOther e) := by
  refine ⟨rfl, ?_, ?_, ?_⟩
  · intro h
    simp [wrapper_process_with_keyboard_exception, h, handleKeyboardInterrupt]
  · intro e h
    simp [wrapper_process_with_keyboard_exception, h, handleKeyboardInterrupt]
  · intro e h
    cases hf : func a <;>
      simp [wrapper_process_with_keyboard_exception, hf, handleKeyboardInterrupt] at h ⊢
    exact h

/-- Witness for claim C6: a work function that raises a keyboard interrupt
is called once and the worker hard-exits with code 0. -/
theorem claim_C6_witness :
    ((fun _ : ℕ => WorkOutcome.keyboardInterrupt) 7 = WorkOutcome.keyboardInterrupt) ∧
    (wrapper_process_with_keyboard_exception
        (fun _ : ℕ => WorkOutcome.keyboardInterrupt) 7).1 = [7] ∧
    (wrapper_process_with_keyboard_exception
        (fun _ : ℕ => WorkOutcome.keyboardInterrupt) 7).2 = ProcExit.hardExit 0 :=
  ⟨rfl, (claim_C6 (fun _ : ℕ => WorkOutcome.keyboardInterrupt) 7).1,
    (claim_C6 (fun _ : ℕ => WorkOutcome.keyboardInterrupt) 7).2.1 rfl⟩

/-- Claim C7 (confirmed): at the start of every run any pre-existing file at
the sink path is deleted, with no missing-file error when none exists
(Scenario C), and the sink is opened truncating, so the final sink content
never depends on stale pre-existing content. -/
theorem claim_C7 (prev : Option String) (msgs : List String) :
    remove_suppressing_missing prev = Except.ok none ∧
    run_sink_content prev msgs =
      Except.ok (logger_written_content STOP_TOKEN ("") msgs) ∧
    run_sink_content prev msgs = run_sink_content none msgs := by
  have h1 : remove_suppressing_missing prev = Except.ok none := by
    cases prev <;> rfl
  have hc : ∀ p : Option String,
      run_sink_content p msgs =
        Except.ok (logger_written_content STOP_TOKEN ("") msgs) := by
    intro p; cases p <;> rfl
  exact ⟨h1, hc prev, by rw [hc prev, hc none]⟩

theorem logSampleMessage_has_newline (rpp pid count : ℤ) (nowStr respStr : String) :
    '\n' ∈ (logSampleStatusMessage rpp pid count nowStr respStr).data := by
  simp only [logSampleStatusMessage, String.data_append]
  refine List.mem_append.mpr (Or.inr ?_)
  decide

/-- Claim C1 (corrected, counterexample part): the sentinel is the plain
string value `'EOF!!'`, which is itself a possible channel text payload; a
worker that enqueues that string drives the aggregator loop straight to its
terminal branch, and a later legitimate message is never written.  So the
sentinel is not distinct from every possible LogMessage. -/
theorem claim_C1_counterexample :
    ("EOF!!" : String) = STOP_TOKEN ∧
    logger_process_run STOP_TOKEN [("EOF!!" : String), ("worker data line\n" : String)] =
      [LogAct.close] ∧
    LogAct.write ("worker data line\n") ∉
      logger_process_run STOP_TOKEN [("EOF!!" : String), ("worker data line\n" : String)] :=
  ⟨by decide, by decide, by decide⟩

/-- Claim C1 (corrected, amended): every message this repository's work
functions actually place on the channel (the `logSampleStatusOnEachPercent`
format, which ends in `' ms\n'`) differs from the sentinel `'EOF!!'`, so on
this traffic the aggregator never terminates on a legitimate message and
writes (then flushes) every such message it dequeues. -/
theorem claim_C1_amended (rpp pid count : ℤ) (nowStr respStr : String)
    (rest : List String) :
    logSampleStatusMessage rpp pid count nowStr respStr ≠ STOP_TOKEN ∧
    logger_process_run STOP_TOKEN
        (logSampleStatusMessage rpp pid count nowStr respStr :: rest) =
      LogAct.write (logSampleStatusMessage rpp pid count nowStr respStr) ::
        LogAct.flush :: logger_process_run STOP_TOKEN rest := by
  have hne : logSampleStatusMessage rpp pid count nowStr respStr ≠ STOP_TOKEN := by
    intro h
    have hnl := logSampleMessage_has_newline rpp pid count nowStr respStr
    rw [h] at hnl
    exact absurd hnl (by decide)
  exact ⟨hne, by simp [logger_process_run, hne]⟩

/-- Claim C2 (code bug): the partition size is computed with Python true
(float) division, `int(records_count / processor_count)`, which differs
from the exact integer floor once `records_count` exceeds 2^53.  At
`records_count = 2^53 + 1`, `processor_count = 1` the code computes 2^53
while the exact floor is 2^53 + 1: the quotient 2^53 + 1 is not
representable as a double and rounds (ties to even) to 2^53. -/
theorem claim_C2_eval :
    records_per_process (2 ^ 53 + 1) 1 = 2 ^ 53 ∧
    (2 ^ 53 + 1 : ℕ) / 1 = 2 ^ 53 + 1 :=
  ⟨by decide, by decide⟩

/-- Claim C8 (code bug): for the same float-division reason the sum of all
workers' partition sizes can differ from
`total_items - total_items mod worker_count`.  At `worker_count = 4`,
`total_items = 2^55 + 4` each worker receives 2^53 (the exact per-worker
share 2^53 + 1 rounds to 2^53), so the sum is 2^55, not 2^55 + 4. -/
theorem claim_C8_eval :
    (workerPartitionSizes 4 (2 ^ 55 + 4)).sum = 2 ^ 55 ∧
    (2 ^ 55 + 4 : ℤ) - (2 ^ 55 + 4) % 4 = 2 ^ 55 + 4 :=
  ⟨by decide, by decide⟩

/-- Claim C3 (corrected, counterexample part): with `worker_count = -1` the
entry point does not fail at all: no exception is raised, the logger
process is started (a process is spawned and the queue allocated), zero
workers run, and the run completes normally. -/
theorem claim_C3_counterexample :
    run_data_processors (-1) 5 =
      Except.ok (-5,
        [Event.removeLogfile, Event.createQueue, Event.startLogProcess,
         Event.putStopToken, Event.joinLogProcess]) := by
  rfl

/-- Claim C3 (corrected, amended): only `worker_count = 0` makes the entry
point fail, with a `ZeroDivisionError` from the partition computation,
raised before any process is spawned or resource allocated; for negative
`worker_count` no invalid-input error is raised — the run proceeds, starts
the logger process, and constructs and starts no worker. -/
theorem claim_C3_amended (pc : ℤ) (_h : pc ≤ 0) (rc : ℕ) :
    (pc = 0 → run_data_processors pc rc = Except.error PyExc.zeroDivisionError) ∧
    (pc < 0 → ∃ t : List Event,
      run_data_processors pc rc = Except.ok (records_per_process rc pc, t) ∧
      (∀ i : ℕ, Event.constructWorker i ∉ t) ∧
      (∀ i : ℕ, Event.startWorker i ∉ t) ∧
      Event.startLogProcess ∈ t) := by
  constructor
  · intro h0
    simp [run_data_processors, h0]
  · intro hneg
    have hne : pc ≠ 0 := by omega
    have htn : pc.toNat = 0 := by omega
    refine ⟨[Event.removeLogfile, Event.createQueue, Event.startLogProcess,
             Event.putStopToken, Event.joinLogProcess], ?_, ?_, ?_, ?_⟩
    · simp [run_data_processors, hne, htn]
    · intro i; simp
    · intro i; simp
    · simp

/-- Witness for claim C3 (amended) at `worker_count = -1`. -/
theorem claim_C3_witness :
    ((-1 : ℤ) ≤ 0) ∧
    (((-1 : ℤ) = 0 → run_data_processors (-1) 5 = Except.error PyExc.zeroDivisionError) ∧
      ((-1 : ℤ) < 0 → ∃ t : List Event,
        run_data_processors (-1) 5 = Except.ok (records_per_process 5 (-1), t) ∧
        (∀ i : ℕ, Event.constructWorker i ∉ t) ∧
        (∀ i : ℕ, Event.startWorker i ∉ t) ∧
        Event.startLogProcess ∈ t)) :=
  ⟨by decide, claim_C3_amended (-1) (by decide) 5⟩

/-- Claim C4 (confirmed): on every uninterrupted run with a positive worker
count the orchestrator constructs all workers before starting any of them,
joins the workers exactly in start order, enqueues the stop token exactly
once and only after every worker join, and joins the aggregator only after
that, as the last step. -/
theorem claim_C4 (pc : ℤ) (h : 0 < pc) (rc : ℕ) :
    ∃ t : List Event,
      run_data_processors pc rc = Except.ok (records_per_process rc pc, t) ∧
      OrchestratorOrdered pc.toNat t := by
  have hne : pc ≠ 0 := by omega
  refine ⟨[Event.removeLogfile, Event.createQueue, Event.startLogProcess]
      ++ (List.range pc.toNat).map Event.constructWorker
      ++ (List.range pc.toNat).map Event.startWorker
      ++ (List.range pc.toNat).map Event.joinWorker
      ++ [Event.putStopToken, Event.joinLogProcess],
    by simp [run_data_processors, hne], ?_, ?_, ?_, ?_⟩
  · refine ⟨[Event.removeLogfile, Event.createQueue, Event.startLogProcess]
        ++ (List.range pc.toNat).map Event.constructWorker,
      (List.range pc.toNat).map Event.startWorker
        ++ (List.range pc.toNat).map Event.joinWorker
        ++ [Event.putStopToken, Event.joinLogProcess],
      by simp [List.append_assoc], ?_, ?_⟩
    · intro i hi
      exact List.mem_append.mpr (Or.inr (List.mem_map.mpr ⟨i, List.mem_range.mpr hi, rfl⟩))
    · intro e he
      rcases List.mem_append.mp he with hA | hB
      · rcases List.mem_cons.mp hA with rfl | hA2
        · rfl
        · rcases List.mem_cons.mp hA2 with rfl | hA3
          · rfl
          · rcases List.mem_cons.mp hA3 with rfl | hA4
            · rfl
            · exact absurd hA4 (List.not_mem_nil e)
      · obtain ⟨x, -, rfl⟩ := List.mem_map.mp hB
        rfl
  · have hAf : List.filter isStartEvent
        [Event.removeLogfile, Event.createQueue, Event.startLogProcess] = [] := rfl
    have hEf : List.filter isStartEvent
        [Event.putStopToken, Event.joinLogProcess] = [] := rfl
    rw [List.filter_append, List.filter_append, List.filter_append, List.filter_append,
      hAf, hEf,
      filter_map_eq_nil isStartEvent Event.constructWorker (fun x => rfl),
      filter_map_eq_self isStartEvent Event.startWorker (fun x => rfl),
      filter_map_eq_nil isStartEvent Event.joinWorker (fun x => rfl)]
    simp
  · have hAf : List.filter isJoinEvent
        [Event.removeLogfile, Event.createQueue, Event.startLogProcess] = [] := rfl
    have hEf : List.filter isJoinEvent
        [Event.putStopToken, Event.joinLogProcess] = [] := rfl
    rw [List.filter_append, List.filter_append, List.filter_append, List.filter_append,
      hAf, hEf,
      filter_map_eq_nil isJoinEvent Event.constructWorker (fun x => rfl),
      filter_map_eq_nil isJoinEvent Event.startWorker (fun x => rfl),
      filter_map_eq_self isJoinEvent Event.joinWorker (fun x => rfl)]
    simp
  · refine ⟨[Event.removeLogfile, Event.createQueue, Event.startLogProcess]
        ++ (List.range pc.toNat).map Event.constructWorker
        ++ (List.range pc.toNat).map Event.startWorker
        ++ (List.range pc.toNat).map Event.joinWorker, ?_, ?_, ?_, ?_⟩
    · simp [List.append_assoc]
    · simp
    · simp
    · intro i hi
      simp only [List.mem_append, List.mem_map, List.mem_range]
      simp
      omega

/-- Witness for claim C4 at two workers and ten records. -/
theorem claim_C4_witness :
    ((0 : ℤ) < 2) ∧
    (∃ t : List Event,
      run_data_processors 2 10 = Except.ok (records_per_process 10 2, t) ∧
      OrchestratorOrdered (2 : ℤ).toNat t) :=
  ⟨by decide, claim_C4 2 (by decide) 10⟩

theorem digitChar10_toNat (d : ℕ) (hd : d < 10) : (digitChar10 d).toNat = 48 + d := by
  interval_cases d <;> decide

theorem digitChar10_ne_underscore (d : ℕ) (hd : d < 10) : digitChar10 d ≠ '_' := by
  interval_cases d <;> decide

theorem toDecimalAux_foldl (fuel : ℕ) : ∀ n a, n < fuel →
    List.foldl (fun acc c => 10 * acc + (c.toNat - 48)) a (toDecimalAux fuel n) =
      a * 10 ^ (toDecimalAux fuel n).length + n := by
  induction fuel with
  | zero => intro n a h; exact absurd h (Nat.not_lt_zero n)
  | succ fuel ih =>
    intro n a h
    by_cases hn : n < 10
    · simp [toDecimalAux, hn, digitChar10_toNat n hn]
      omega
    · have h10 : n / 10 < fuel := by omega
      simp only [toDecimalAux, if_neg hn]
      rw [List.foldl_append, ih (n / 10) a h10]
      simp only [List.foldl_cons, List.foldl_nil, List.length_append,
        List.length_singleton, digitChar10_toNat (n % 10) (by omega)]
      have hdm : 10 * (n / 10) + (48 + n % 10 - 48) = n := by omega
      calc 10 * (a * 10 ^ (toDecimalAux fuel (n / 10)).length + n / 10)
            + (48 + n % 10 - 48)
          = a * (10 ^ (toDecimalAux fuel (n / 10)).length * 10)
            + (10 * (n / 10) + (48 + n % 10 - 48)) := by ring
        _ = a * 10 ^ ((toDecimalAux fuel (n / 10)).length + 1) + n := by
            rw [hdm, pow_succ]

theorem decode_natDecimal (n : ℕ) : decodeDecimal (natDecimal n) = n := by
  have h := toDecimalAux_foldl (n + 1) n 0 (by omega)
  simpa [decodeDecimal, natDecimal] using h

theorem natDecimal_inj {n1 n2 : ℕ} (h : natDecimal n1 = natDecimal n2) : n1 = n2 := by
  have h1 := decode_natDecimal n1
  rw [h, decode_natDecimal] at h1
  exact h1.symm

theorem mem_toDecimalAux (fuel : ℕ) : ∀ n c, c ∈ toDecimalAux fuel n →
    ∃ d, d < 10 ∧ c = digitChar10 d := by
  induction fuel with
  | zero => intro n c hc; exact absurd hc (List.not_mem_nil c)
  | succ fuel ih =>
    intro n c hc
    by_cases hn : n < 10
    · rw [toDecimalAux, if_pos hn] at hc
      exact ⟨n, hn, by simpa using hc⟩
    · rw [toDecimalAux, if_neg hn] at hc
      rcases List.mem_append.mp hc with hc1 | hc2
      · exact ih (n / 10) c hc1
      · exact ⟨n % 10, by omega, by simpa using hc2⟩

theorem underscore_not_mem_natDecimal (n : ℕ) : '_' ∉ natDecimal n := by
  intro hmem
  obtain ⟨d, hd, he⟩ := mem_toDecimalAux (n + 1) n '_' hmem
  exact digitChar10_ne_underscore d hd he.symm

theorem sep_split : ∀ (l1 : List Char) (r1 : List Char) (l2 r2 : List Char),
    '_' ∉ l1 → '_' ∉ l2 → l1 ++ '_' :: r1 = l2 ++ '_' :: r2 → l1 = l2 ∧ r1 = r2 := by
  intro l1
  induction l1 with
  | nil =>
    intro r1 l2 r2 _ hl2 heq
    cases l2 with
    | nil => simpa using heq
    | cons c t =>
      simp only [List.nil_append, List.cons_append, List.cons.injEq] at heq
      exact absurd (heq.1 ▸ List.mem_cons_self c t) hl2
  | cons c t ih =>
    intro r1 l2 r2 hl1 hl2 heq
    cases l2 with
    | nil =>
      simp only [List.nil_append, List.cons_append, List.cons.injEq] at heq
      exact absurd (heq.1.symm ▸ List.mem_cons_self c t) hl1
    | cons c2 t2 =>
      simp only [List.cons_append, List.cons.injEq] at heq
      obtain ⟨rfl, heq2⟩ := heq
      have hrec := ih r1 t2 r2 (fun hm => hl1 (List.mem_cons_of_mem _ hm))
        (fun hm => hl2 (List.mem_cons_of_mem _ hm)) heq2
      exact ⟨by rw [hrec.1], hrec.2⟩

/-- Claim C9 (confirmed): within one run the document keys
`f'{process_id}_{count}'` built by `insert_payment_records` are pairwise
distinct: the map from `(process_id, count)` (with `process_id` below the
worker count and `count` below the per-worker record count) to the key
string is injective, so no two documents of the same run share an `_id`. -/
theorem claim_C9 (pc rpp p1 c1 p2 c2 : ℕ) (_hp1 : p1 < pc) (_hc1 : c1 < rpp)
    (_hp2 : p2 < pc) (_hc2 : c2 < rpp) :
    ingest_doc_id p1 c1 = ingest_doc_id p2 c2 → p1 = p2 ∧ c1 = c2 := by
  intro h
  have hd : natDecimal p1 ++ '_' :: natDecimal c1
      = natDecimal p2 ++ '_' :: natDecimal c2 := congrArg String.data h
  have hsp := sep_split (natDecimal p1) (natDecimal c1) (natDecimal p2) (natDecimal c2)
    (underscore_not_mem_natDecimal p1) (underscore_not_mem_natDecimal p2) hd
  exact ⟨natDecimal_inj hsp.1, natDecimal_inj hsp.2⟩

/-- Witness for claim C9 at concrete worker and record indices. -/
theorem claim_C9_witness :
    (1 < 3 ∧ 2 < 5) ∧
    (ingest_doc_id 1 2 = ingest_doc_id 1 2 → 1 = 1 ∧ 2 = 2) :=
  ⟨by decide, claim_C9 3 5 1 2 1 2 (by decide) (by decide) (by decide) (by decide)⟩

theorem natLog2F_bounds (fuel : ℕ) : ∀ n, n ≤ fuel →
    (1 ≤ n → 2 ^ natLog2F fuel n ≤ n) ∧ n < 2 ^ (natLog2F fuel n + 1) := by
  induction fuel with
  | zero =>
    intro n h
    have hn0 : n = 0 := by omega
    subst hn0
    exact ⟨fun h1 => absurd h1 (by omega), by simp [natLog2F]⟩
  | succ fuel ih =>
    intro n h
    by_cases hn : n < 2
    · rw [natLog2F, if_pos hn]
      exact ⟨fun h1 => by simpa using h1, by simpa using hn⟩
    · have hrec : n / 2 ≤ fuel := by omega
      have ihh := ih (n / 2) hrec
      rw [natLog2F, if_neg hn]
      constructor
      · intro _
        have h1 : 1 ≤ n / 2 := by omega
        have hlow := ihh.1 h1
        rw [pow_succ]
        omega
      · have hup := ihh.2
        rw [pow_succ]
        omega

theorem natLog2_le_self {n : ℕ} (h : 1 ≤ n) : 2 ^ natLog2 n ≤ n :=
  (natLog2F_bounds n n le_rfl).1 h

theorem lt_natLog2_succ (n : ℕ) : n < 2 ^ (natLog2 n + 1) :=
  (natLog2F_bounds n n le_rfl).2

theorem pow2le_flog2 (a b : ℕ) (ha : 1 ≤ a) (hb : 1 ≤ b) :
    pow2le (flog2 a b) a b = true := by
  rw [flog2]
  by_cases hp : pow2le ((natLog2 a : ℤ) - (natLog2 b : ℤ)) a b = true
  · rw [if_pos hp]; exact hp
  · rw [if_neg hp]
    have h1 : 2 ^ natLog2 a ≤ a := natLog2_le_self ha
    have h2 : b < 2 ^ (natLog2 b + 1) := lt_natLog2_succ b
    rw [pow2le]
    by_cases hs : (0 : ℤ) ≤ (natLog2 a : ℤ) - (natLog2 b : ℤ) - 1
    · rw [if_pos hs]
      simp only [decide_eq_true_eq]
      have htn : ((natLog2 a : ℤ) - (natLog2 b : ℤ) - 1).toNat
          = natLog2 a - natLog2 b - 1 := by omega
      rw [htn]
      have hXpos : 0 < 2 ^ (natLog2 a - natLog2 b - 1) := pow_pos (by omega) _
      have hsplit : 2 ^ (natLog2 b + 1) * 2 ^ (natLog2 a - natLog2 b - 1)
          = 2 ^ natLog2 a := by
        rw [← pow_add]
        congr 1
        omega
      have hstep : b * 2 ^ (natLog2 a - natLog2 b - 1)
          < 2 ^ (natLog2 b + 1) * 2 ^ (natLog2 a - natLog2 b - 1) :=
        mul_lt_mul_of_pos_right h2 hXpos
      rw [hsplit] at hstep
      exact le_of_lt (lt_of_lt_of_le hstep h1)
    · rw [if_neg hs]
      simp only [decide_eq_true_eq]
      have htn : (-((natLog2 a : ℤ) - (natLog2 b : ℤ) - 1)).toNat
          = natLog2 b + 1 - natLog2 a := by omega
      rw [htn]
      have hsplit : 2 ^ natLog2 a * 2 ^ (natLog2 b + 1 - natLog2 a)
          = 2 ^ (natLog2 b + 1) := by
        rw [← pow_add]
        congr 1
        omega
      have hstep : 2 ^ natLog2 a * 2 ^ (natLog2 b + 1 - natLog2 a)
          ≤ a * 2 ^ (natLog2 b + 1 - natLog2 a) :=
        Nat.mul_le_mul_right _ h1
      rw [hsplit] at hstep
      exact le_of_lt (lt_of_lt_of_le h2 hstep)

theorem roundMantissa_pos {num den : ℕ} (hden : 1 ≤ den) (hle : den ≤ num) :
    1 ≤ roundMantissa num den := by
  have hq : 1 ≤ num / den := (Nat.one_le_div_iff hden).mpr hle
  rw [roundMantissa]
  split_ifs <;> omega

theorem roundPos_mantissa_pos (a b : ℕ) (ha : 1 ≤ a) (hb : 1 ≤ b) :
    1 ≤ (roundPos a b).1 := by
  have hp := pow2le_flog2 a b ha hb
  have hden : 1 ≤ scaledDen a b := by
    rw [scaledDen]
    split_ifs
    · have := Nat.mul_pos hb (pow_pos (by omega : 0 < 2) (flog2 a b - 52).toNat)
      omega
    · exact hb
  have hle : scaledDen a b ≤ scaledNum a b := by
    rw [scaledDen, scaledNum]
    by_cases hs : (0 : ℤ) ≤ flog2 a b - 52
    · rw [if_pos hs, if_pos hs]
      have he0 : (0 : ℤ) ≤ flog2 a b := by omega
      rw [pow2le, if_pos he0, decide_eq_true_eq] at hp
      have hmono : b * 2 ^ (flog2 a b - 52).toNat ≤ b * 2 ^ (flog2 a b).toNat :=
        Nat.mul_le_mul_left b (Nat.pow_le_pow_right (by omega) (by omega))
      exact le_trans hmono hp
    · rw [if_neg hs, if_neg hs]
      by_cases he0 : (0 : ℤ) ≤ flog2 a b
      · rw [pow2le, if_pos he0, decide_eq_true_eq] at hp
        have hb2 : b ≤ b * 2 ^ (flog2 a b).toNat :=
          Nat.le_mul_of_pos_right b (pow_pos (by omega) _)
        have ha2 : a ≤ a * 2 ^ (52 - flog2 a b).toNat :=
          Nat.le_mul_of_pos_right a (pow_pos (by omega) _)
        exact le_trans hb2 (le_trans hp ha2)
      · rw [pow2le, if_neg he0, decide_eq_true_eq] at hp
        have hmono : a * 2 ^ (-flog2 a b).toNat ≤ a * 2 ^ (52 - flog2 a b).toNat :=
          Nat.mul_le_mul_left a (Nat.pow_le_pow_right (by omega) (by omega))
        exact le_trans hp hmono
  have key : 1 ≤ roundMantissa (scaledNum a b) (scaledDen a b) :=
    roundMantissa_pos hden hle
  rw [roundPos]
  omega

/-- Claim C10 (confirmed): in both work functions, whenever the loop body
runs (`count` drawn from `range(records_per_process)`, hence only when
`records_per_process ≥ 1`), the sampling guard
`count % (records_per_process / 100)` never divides by zero — the float
divisor `records_per_process / 100` is nonzero — and whenever
`logSampleStatusOnEachPercent` reads `start_utc`, the caller's identical
guard over the same unchanged values held earlier in the same iteration,
so the local `start` was assigned and no use-before-assignment error is
reachable. -/
theorem claim_C10 (rpp count : ℤ) (h : count ∈ pyRange rpp) (prev : Bool) :
    1 ≤ rpp ∧
    (∃ g : Bool, sampleGuard rpp count = Except.ok g) ∧
    (logSampleReadsStart rpp count = Except.ok true →
      startAssignedAfterGuard rpp count prev = Except.ok true) := by
  have hr : 1 ≤ rpp := by
    by_contra hc
    rw [pyRange, if_pos (by omega)] at h
    exact absurd h (List.not_mem_nil count)
  refine ⟨hr, ?_, ?_⟩
  · have hm : 1 ≤ (sampleDivisor rpp).1 := by
      rw [sampleDivisor, pyFloat_div, if_neg (by omega : ¬ (100 : ℤ) < 0),
        roundQ, if_neg (by omega : ¬ rpp < 0)]
      exact roundPos_mantissa_pos rpp.toNat 100 (by omega) (by omega)
    rw [sampleGuard, pyFloat_mod, if_neg (by omega : ¬ (sampleDivisor rpp).1 = 0)]
    exact ⟨_, rfl⟩
  · intro hread
    rw [logSampleReadsStart] at hread
    rw [startAssignedAfterGuard, hread]
    simp

/-- Witness for claim C10 at `records_per_process = 100`, `count = 0`, with
`start` unassigned before the iteration. -/
theorem claim_C10_witness :
    ((0 : ℤ) ∈ pyRange 100) ∧
    (1 ≤ (100 : ℤ) ∧
      (∃ g : Bool, sampleGuard 100 0 = Except.ok g) ∧
      (logSampleReadsStart 100 0 = Except.ok true →
        startAssignedAfterGuard 100 0 false = Except.ok true)) :=
  ⟨by decide, claim_C10 100 0 (by decide) false⟩
